import Mathlib

/-!
# The PMC secure stream switch (`hw/misc/sss-pmc.c`)

A shallow embedding of the routing tables and of the resolver
`pmc_get_sss_regfield`, together with the register write and reset paths
of the single control register `R_CFG`.

C arrays are lists read through a checked index, so that an index the C
code could not legally use shows up as `none`; the C code itself makes no
such test, and `pmc_get_sss_regfield_unchecked` is the resolver with its
reads left unchecked, the memory around the tables being a parameter.
Words of type `uint32_t` are natural numbers.  The state logs every
broadcast with the register file the listeners read at that moment.
-/

namespace SssPmc

/-! ## Constants and the endpoint enumeration -/

def R_CFG : Nat := 0
def R_MAX : Nat := R_CFG + 1
def R_PMC_SSS_FIELD_LENGTH : Int := 4

/- `typedef enum { DMA0, ..., PZM, PMC_NUM_REMOTES } PMCSSSRemote;` -/
def DMA0 : Nat := 0
def DMA1 : Nat := 1
def PTPI : Nat := 2
def AES : Nat := 3
def SHA : Nat := 4
def SBI : Nat := 5
def PZM : Nat := 6
def PMC_NUM_REMOTES : Nat := 7

def NO_REMOTE : Nat := PMC_NUM_REMOTES

/-- Reading a C array at an `int` index inside the array.  `none` marks an
index outside the array.  The C code makes no such test: a read outside an
array has no defined value in C, and `none` is the mark the embedding puts
on it; `cRead` below is the read as the machine performs it. -/
def cIndex {α : Type} (xs : List α) (i : Int) : Option α :=
  if 0 ≤ i then xs[i.toNat]? else none

/-! ## The static tables -/

/-- The topology bitmasks.  The initialiser names the slots `DMA0..SBI` and
`NO_REMOTE`; the slot `PZM` between them is zero-filled. -/
def pmc_sss_population : List Nat :=
  [ (1 <<< DMA0) ||| (1 <<< AES) ||| (1 <<< SBI) ||| (1 <<< PZM),
    (1 <<< DMA1) ||| (1 <<< AES) ||| (1 <<< SBI) ||| (1 <<< PZM),
    (1 <<< DMA0) ||| (1 <<< DMA1),
    (1 <<< DMA0) ||| (1 <<< DMA1),
    (1 <<< DMA0) ||| (1 <<< DMA1),
    (1 <<< DMA0) ||| (1 <<< DMA1),
    0,
    0 ]

def r_pmc_cfg_sss_shifts : List Int :=
  [0, 4, 8, 12, 16, 20, -1]

def r_pmc_cfg_sss_encodings : List Nat :=
  [DMA0, DMA1, PTPI, AES, SHA, SBI, PZM]

/-              DMA0  DMA1  PTPI  AES   SHA   SBI   PZM   NONE -/
def DMA0_MAP : List Nat := [0xD,  0xFF, 0xFF, 0x6,  0xFF, 0xB,  0x3,  0xFF]
def DMA1_MAP : List Nat := [0xFF, 0x9,  0xFF, 0x7,  0xFF, 0xE,  0x4,  0xFF]
def PTPI_MAP : List Nat := [0xD,  0xA,  0xFF, 0xFF, 0xFF, 0xFF, 0xFF, 0xFF]
def AES_MAP  : List Nat := [0xE,  0x5,  0xFF, 0xFF, 0xFF, 0xFF, 0xFF, 0xFF]
def SHA_MAP  : List Nat := [0xC,  0x7,  0xFF, 0xFF, 0xFF, 0xFF, 0xFF, 0xFF]
def SBI_MAP  : List Nat := [0x5,  0xB,  0xFF, 0xFF, 0xFF, 0xFF, 0xFF, 0xFF]

/-- The encoding table: six rows (`DMA0..SBI`) of `PMC_NUM_REMOTES + 1`
codes each. -/
def pmc_sss_cfg_mapping : List (List Nat) :=
  [DMA0_MAP, DMA1_MAP, PTPI_MAP, AES_MAP, SHA_MAP, SBI_MAP]

/-! ## Device state -/

/-- The mutable part of `struct PMCSSS`: the register file
`uint32_t regs[R_MAX]`, and the log of the broadcasts sent through
`sss_notify_all`, oldest first: one entry for each broadcast, the register
file that the listeners see when the broadcast reaches them. -/
structure PMCSSS where
  regs : List Nat
  notifies : List (List Nat)
deriving DecidableEq, Repr

/-! ## Bit-field helpers -/

/-- Modelled from the spec: `extract32` (`include/qemu/bitops.h`) is not
among the sources.  Section 4.1 has the resolver "extract `width`-bit
subfield at `offset` from `word`"; the field is defined when
`0 ≤ start`, `0 < length` and `length ≤ 32 - start`, and is then
`(value >> start) & (~0U >> (32 - length))`. -/
def extract32 (value : Nat) (start length : Int) : Option Nat :=
  if 0 ≤ start ∧ 0 < length ∧ length ≤ 32 - start then
    some ((value >>> start.toNat) &&& (0xFFFFFFFF >>> (32 - length).toNat))
  else none

/-- Modelled from the spec: `deposit32` (`include/qemu/bitops.h`) is not
among the sources.  It is the "writing the source's code into the sink's
field" of section 8: the `length` bits of `value` from bit `start` on are
replaced by the low bits of `fieldval`, under the precondition of
`extract32`. -/
def deposit32 (value : Nat) (start length : Int) (fieldval : Nat) : Option Nat :=
  if 0 ≤ start ∧ 0 < length ∧ length ≤ 32 - start then
    let mask := (0xFFFFFFFF >>> (32 - length).toNat) <<< start.toNat
    some ((value &&& (0xFFFFFFFF ^^^ mask)) ||| ((fieldval <<< start.toNat) &&& mask))
  else none

/-! ## The resolver -/

/-- The `for` loop of `pmc_get_sss_regfield`, started at `indx`: it leaves
at the first `indx` whose code equals `reg`, or with
`indx = PMC_NUM_REMOTES`.  `fuel` bounds the number of tests of the loop
condition. -/
def pmc_get_sss_regfield_loop (remote : Int) (reg : Nat) : Nat → Nat → Option Nat
  | 0, _ => none
  | fuel + 1, indx =>
    if indx < PMC_NUM_REMOTES then
      match cIndex pmc_sss_cfg_mapping remote with
      | none => none
      | some row =>
        match row[indx]? with
        | none => none
        | some code =>
          if reg = code then some indx
          else pmc_get_sss_regfield_loop remote reg fuel (indx + 1)
    else some indx

/-- The resolver `pmc_get_sss_regfield(p, remote)`: the source endpoint
selected for sink `remote` by the control word, or `PMC_NUM_REMOTES`.
`none` marks a run the C code has no defined result for: a read outside a
table, or the failed assertion of `extract32`.  The C function makes no
test of `remote`; `pmc_get_sss_regfield_unchecked` below is the same
function with its reads left unchecked, and the two agree on the sinks
`DMA0..PZM`. -/
def pmc_get_sss_regfield (s : PMCSSS) (remote : Int) : Option Nat :=
  match s.regs[R_CFG]?, cIndex r_pmc_cfg_sss_shifts remote with
  | some word, some shift =>
    match extract32 word shift R_PMC_SSS_FIELD_LENGTH with
    | some reg => pmc_get_sss_regfield_loop remote reg (PMC_NUM_REMOTES + 1) 0
    | none => none
  | _, _ => none

/-- The table entry `pmc_sss_cfg_mapping[sink][e]`. -/
def mapping_code (sink : Int) (e : Nat) : Option Nat :=
  match cIndex pmc_sss_cfg_mapping sink with
  | some row => row[e]?
  | none => none

/-- Whether bit `e` is set in `pmc_sss_population[sink]`. -/
def population_bit (sink : Int) (e : Nat) : Option Bool :=
  match cIndex pmc_sss_population sink with
  | some mask => some (mask.testBit e)
  | none => none

/-- The scan of the reference resolver: the first of the
`PMC_NUM_REMOTES + 1` slots of `row`, in ordinal order, whose code is
`reg`; the sentinel when there is none. -/
def resolve_ref_scan (row : List Nat) (reg : Nat) : Nat :=
  match (row.take (PMC_NUM_REMOTES + 1)).findIdx? (fun code => code == reg) with
  | some e => e
  | none => NO_REMOTE

/-- The reference resolver, written after section 4.1 of the specification
and not after the C code: extract the field, scan all
`PMC_NUM_REMOTES + 1` slots of the sink's row (the sentinel slot included)
in ordinal order, return the first slot whose code equals the field, and
the sentinel when no slot does. -/
def resolve_ref (s : PMCSSS) (sink : Int) : Option Nat :=
  match s.regs[R_CFG]?, cIndex r_pmc_cfg_sss_shifts sink, cIndex pmc_sss_cfg_mapping sink with
  | some word, some shift, some row =>
    match extract32 word shift R_PMC_SSS_FIELD_LENGTH with
    | some reg => some (resolve_ref_scan row reg)
    | none => none
  | _, _, _ => none

/-! ## The resolver with its reads unchecked -/

/-- What the memory around the two tables holds.  The C code reads
`r_pmc_cfg_sss_shifts[remote]` and `pmc_sss_cfg_mapping[remote][indx]`
with no test of `remote`; a read outside a table delivers what is stored
at that place, which the source does not fix, so it is a parameter:
`shift_outside i` is the `int` read as `r_pmc_cfg_sss_shifts[i]`, and
`code_outside i indx` the byte read as `pmc_sss_cfg_mapping[i][indx]`. -/
structure Surroundings where
  shift_outside : Int → Int
  code_outside : Int → Nat → Nat

/-- The unchecked read `xs[i]`: the entry of the table when `i` is inside
it, and what the surroundings hold otherwise. -/
def cRead {α : Type} (outside : Int → α) (xs : List α) (i : Int) : α :=
  match cIndex xs i with
  | some x => x
  | none => outside i

/-- The unchecked read `pmc_sss_cfg_mapping[remote][indx]`, a `uint8_t`. -/
def mapping_read (m : Surroundings) (remote : Int) (indx : Nat) : Nat :=
  match cIndex pmc_sss_cfg_mapping remote with
  | some row =>
    match row[indx]? with
    | some code => code
    | none => m.code_outside remote indx % 256
  | none => m.code_outside remote indx % 256

/-- The `for` loop of `pmc_get_sss_regfield` with the table read
unchecked. -/
def pmc_get_sss_regfield_unchecked_loop (m : Surroundings) (remote : Int) (reg : Nat) :
    Nat → Nat → Option Nat
  | 0, _ => none
  | fuel + 1, indx =>
    if indx < PMC_NUM_REMOTES then
      if reg = mapping_read m remote indx then some indx
      else pmc_get_sss_regfield_unchecked_loop m remote reg fuel (indx + 1)
    else some indx

/-- The function `pmc_get_sss_regfield(p, remote)` as the C code runs it:
no test of `remote`, both table reads unchecked.  The only stop is the
assertion of `extract32`. -/
def pmc_get_sss_regfield_unchecked (m : Surroundings) (s : PMCSSS) (remote : Int) :
    Option Nat :=
  match s.regs[R_CFG]? with
  | some word =>
    match extract32 word (cRead m.shift_outside r_pmc_cfg_sss_shifts remote)
        R_PMC_SSS_FIELD_LENGTH with
    | some reg => pmc_get_sss_regfield_unchecked_loop m remote reg (PMC_NUM_REMOTES + 1) 0
    | none => none
  | none => none

/-- A memory whose cells around the tables all hold zero. -/
def zero_surroundings : Surroundings :=
  { shift_outside := fun _ => 0, code_outside := fun _ _ => 0 }

/-! ## Register write and reset -/

/-- Modelled from the spec: `sss_notify_all` (`hw/misc/sss.c`) is not among
the sources.  It is the `notifyAll()` of section 4.3, one synchronous
broadcast to every listener, on which a listener calls the resolver to
learn its current source (section 2).  The model logs the broadcast
together with the register file the listeners read at that moment. -/
def sss_notify_all (s : PMCSSS) : PMCSSS :=
  { s with notifies := s.notifies ++ [s.regs] }

/-- The hook `r_cfg_post_write(reg, val)`. -/
def r_cfg_post_write (s : PMCSSS) (_val : Nat) : PMCSSS :=
  sss_notify_all s

/-- Modelled from the spec: the declaration of `DepRegisterAccessInfo`
(`hw/register-dep.h`) is not among the sources.  Of its members the model
keeps the read-only mask `ro`, the default value `reset` that section 4.2
calls the "defined default", and the hook `post_write`; a member that an
initialiser does not name is zero. -/
structure DepRegisterAccessInfo where
  name : String
  ro : Nat
  reset : Nat
  post_write : Option (PMCSSS → Nat → PMCSSS)

/-- The access table: `[R_CFG] = { .name = "R_CFG", .ro = 0x00000000,
.post_write = r_cfg_post_write }`. -/
def pmc_sss_regs_info : List DepRegisterAccessInfo :=
  [ { name := "R_CFG", ro := 0x00000000, reset := 0, post_write := some r_cfg_post_write } ]

/-- Modelled from the spec: `dep_register_write_memory_le`
(`hw/register-dep.c`), the `.write` of `sss_ops`, is not among the sources.
Section 4.2: a write replaces the control word, the collaborator keeping
the write-protected bits (the mask `ro`), and the hook fires after the
value is stored. -/
def dep_register_write (s : PMCSSS) (i : Nat) (val : Nat) : Option PMCSSS :=
  match pmc_sss_regs_info[i]?, s.regs[i]? with
  | some ac, some old =>
    let new_val := (val &&& (0xFFFFFFFF ^^^ ac.ro)) ||| (old &&& ac.ro)
    let s1 : PMCSSS := { s with regs := s.regs.set i new_val }
    match ac.post_write with
    | some hook => some (hook s1 new_val)
    | none => some s1
  | _, _ => none

/-- Modelled from the spec: `dep_register_reset` (`hw/register-dep.c`) is
not among the sources.  Section 4.2: reset "sets ControlWord to its
defined default", the member `reset` of the register's access info. -/
def dep_register_reset (s : PMCSSS) (i : Nat) : Option PMCSSS :=
  match pmc_sss_regs_info[i]?, s.regs[i]? with
  | some ac, some _ => some { s with regs := s.regs.set i ac.reset }
  | _, _ => none

/-- The `for` loop of `sss_reset`, started at `i`; `fuel` bounds the number
of tests of the loop condition. -/
def sss_reset_loop : Nat → PMCSSS → Nat → Option PMCSSS
  | 0, _, _ => none
  | fuel + 1, s, i =>
    if i < R_MAX then
      match dep_register_reset s i with
      | some s1 => sss_reset_loop fuel s1 (i + 1)
      | none => none
    else some s

/-- The device reset `sss_reset(dev)`: every register is reset, then one
broadcast is sent. -/
def sss_reset (s : PMCSSS) : Option PMCSSS :=
  match sss_reset_loop (R_MAX + 1) s 0 with
  | some s1 => some (sss_notify_all s1)
  | none => none

/-! ## Bit-field lemmas -/

theorem field_precondition (n : Nat) (hn : n ≤ 28) :
    (0 : Int) ≤ (n : Int) ∧ 0 < R_PMC_SSS_FIELD_LENGTH ∧
      R_PMC_SSS_FIELD_LENGTH ≤ 32 - (n : Int) := by
  refine ⟨by omega, by decide, ?_⟩
  show (4 : Int) ≤ 32 - (n : Int)
  omega

theorem extract32_nat (w n : Nat) (hn : n ≤ 28) :
    extract32 w (n : Int) R_PMC_SSS_FIELD_LENGTH = some ((w >>> n) &&& 15) := by
  unfold extract32
  rw [if_pos (field_precondition n hn)]
  rfl

theorem deposit32_nat (w n c : Nat) (hn : n ≤ 28) :
    deposit32 w (n : Int) R_PMC_SSS_FIELD_LENGTH c =
      some ((w &&& (0xFFFFFFFF ^^^ (15 <<< n))) ||| ((c <<< n) &&& (15 <<< n))) := by
  unfold deposit32
  rw [if_pos (field_precondition n hn)]
  rfl

theorem field_lt (x : Nat) : x &&& 15 < 16 := by
  have : x &&& 15 ≤ 15 := Nat.and_le_right
  omega

theorem field_eq_div_mod (w n : Nat) : (w >>> n) &&& 15 = w / 2 ^ n % 16 := by
  have h := Nat.and_pow_two_sub_one_eq_mod (w >>> n) 4
  rw [← Nat.shiftRight_eq_div_pow]
  simpa using h

theorem testBit_15 (i : Nat) : Nat.testBit 15 i = decide (i < 4) := by
  have : (15 : Nat) = 2 ^ 4 - 1 := by norm_num
  rw [this, Nat.testBit_two_pow_sub_one]

theorem testBit_ones32 (i : Nat) : Nat.testBit 0xFFFFFFFF i = decide (i < 32) := by
  have : (0xFFFFFFFF : Nat) = 2 ^ 32 - 1 := by norm_num
  rw [this, Nat.testBit_two_pow_sub_one]

theorem testBit_lt_16 (c i : Nat) (hc : c < 16) (hi : 4 ≤ i) : c.testBit i = false := by
  apply Nat.testBit_lt_two_pow
  calc c < 2 ^ 4 := by simpa using hc
    _ ≤ 2 ^ i := Nat.pow_le_pow_right (by norm_num) hi

/-- Reading back a 4-bit field that was just deposited gives the deposited
code. -/
theorem extract_deposit (w n c : Nat) (hn : n ≤ 28) (hc : c < 16) :
    (((w &&& (0xFFFFFFFF ^^^ (15 <<< n))) ||| ((c <<< n) &&& (15 <<< n))) >>> n) &&& 15 = c := by
  apply Nat.eq_of_testBit_eq
  intro i
  simp only [Nat.testBit_and, Nat.testBit_or, Nat.testBit_shiftRight, Nat.testBit_shiftLeft,
    Nat.testBit_xor, testBit_15, testBit_ones32]
  by_cases hi : i < 4
  · have h32 : n + i < 32 := by omega
    simp [hi, h32]
  · simp [hi, testBit_lt_16 c i hc (by omega)]

/-! ## The resolver on an addressable sink -/

/-- The shift of an addressable sink is four times its ordinal. -/
theorem shift_of (r : Nat) (hr : r ≤ SBI) :
    cIndex r_pmc_cfg_sss_shifts (r : Int) = some ((4 * r : Nat) : Int) := by
  have h : r ≤ 5 := hr
  interval_cases r <;> rfl

/-- On an addressable sink the resolver is the scan of the sink's row for
the sink's 4-bit field. -/
theorem regfield_eq_loop (s : PMCSSS) (w r : Nat) (hs : s.regs[R_CFG]? = some w)
    (hr : r ≤ SBI) :
    pmc_get_sss_regfield s (r : Int) =
      pmc_get_sss_regfield_loop (r : Int) ((w >>> (4 * r)) &&& 15) (PMC_NUM_REMOTES + 1) 0 := by
  have h : r ≤ 5 := hr
  unfold pmc_get_sss_regfield
  rw [hs, shift_of r hr]
  simp only [extract32_nat w (4 * r) (by omega)]

/-! ## The encoding table, case by case -/

theorem legal_code_resolves : ∀ r : Fin 6, ∀ e : Fin 7,
    population_bit (r.val : Int) e.val = some true →
      ∃ code, code < 16 ∧ (mapping_code (r.val : Int) e.val = some code ∧
        pmc_get_sss_regfield_loop (r.val : Int) code (PMC_NUM_REMOTES + 1) 0 = some e.val) := by
  decide

theorem loop_sentinel_or_match : ∀ r : Fin 6, ∀ v : Fin 16,
    ∃ x, x < 8 ∧ (pmc_get_sss_regfield_loop (r.val : Int) v.val (PMC_NUM_REMOTES + 1) 0 = some x ∧
      (x = NO_REMOTE ↔ ∀ e, e ≤ PZM → mapping_code (r.val : Int) e ≠ some v.val) ∧
      (x ≠ NO_REMOTE → x ≤ PZM ∧ mapping_code (r.val : Int) x = some v.val)) := by
  decide

theorem loop_eq_reference : ∀ r : Fin 6, ∀ v : Fin 16,
    (cIndex pmc_sss_cfg_mapping (r.val : Int)).map (fun row => resolve_ref_scan row v.val) =
      pmc_get_sss_regfield_loop (r.val : Int) v.val (PMC_NUM_REMOTES + 1) 0 := by
  decide

theorem loop_total : ∀ r : Fin 6, ∀ v : Fin 16,
    ∃ x, x < 8 ∧ pmc_get_sss_regfield_loop (r.val : Int) v.val (PMC_NUM_REMOTES + 1) 0 = some x := by
  decide

theorem columns_in_range : ∀ r : Fin 6, ∀ indx, indx < PMC_NUM_REMOTES →
    (mapping_code (r.val : Int) indx).isSome = true := by
  decide

theorem row_of (r : Nat) (hr : r ≤ SBI) :
    ∃ row, cIndex pmc_sss_cfg_mapping (r : Int) = some row := by
  have h : r ≤ 5 := hr
  interval_cases r <;> exact ⟨_, rfl⟩

/-! ## The claims -/

/-- C1, round trip: for an addressable sink `remote`, an endpoint `e` in
`DMA0..PZM` whose bit is set in `pmc_sss_population[remote]` and any word
`w`, the sink has a shift and a code for `e`, the code can be deposited in
the sink's field of `w`, and on any state whose control word is the
resulting word the resolver returns exactly `e`. -/
theorem regfield_round_trip (w remote e : Nat) (hr : remote ≤ SBI) (he : e ≤ PZM)
    (hpop : population_bit (remote : Int) e = some true) :
    ∃ shift code w', cIndex r_pmc_cfg_sss_shifts (remote : Int) = some shift ∧
      mapping_code (remote : Int) e = some code ∧
      deposit32 w shift R_PMC_SSS_FIELD_LENGTH code = some w' ∧
      ∀ s : PMCSSS, s.regs[R_CFG]? = some w' →
        pmc_get_sss_regfield s (remote : Int) = some e := by
  have h5 : remote ≤ 5 := hr
  have h6 : e ≤ 6 := he
  obtain ⟨code, hc, hcode, hloop⟩ :=
    legal_code_resolves ⟨remote, by omega⟩ ⟨e, by omega⟩ hpop
  refine ⟨_, code, _, shift_of remote hr, hcode,
    deposit32_nat w (4 * remote) code (by omega), fun s hs => ?_⟩
  rw [regfield_eq_loop s _ remote hs hr, extract_deposit w (4 * remote) code (by omega) hc]
  exact hloop

theorem regfield_round_trip_witness :
    (AES ≤ SBI ∧ DMA1 ≤ PZM ∧ population_bit ((AES : Nat) : Int) DMA1 = some true) ∧
    ∃ shift code w', cIndex r_pmc_cfg_sss_shifts ((AES : Nat) : Int) = some shift ∧
      mapping_code ((AES : Nat) : Int) DMA1 = some code ∧
      deposit32 0xFFFFFFFF shift R_PMC_SSS_FIELD_LENGTH code = some w' ∧
      ∀ s : PMCSSS, s.regs[R_CFG]? = some w' →
        pmc_get_sss_regfield s ((AES : Nat) : Int) = some DMA1 :=
  ⟨by decide, regfield_round_trip 0xFFFFFFFF AES DMA1 (by decide) (by decide) (by decide)⟩

/-- C2, disconnected state: on an addressable sink the resolver returns a
value `r`; `r` is the sentinel `NO_REMOTE` exactly when the extracted
4-bit field equals none of the codes `pmc_sss_cfg_mapping[remote][e]`,
`e` in `DMA0..PZM`, and otherwise `r` is an endpoint whose code is the
field. -/
theorem regfield_sentinel_iff (s : PMCSSS) (w remote : Nat) (hs : s.regs[R_CFG]? = some w)
    (hr : remote ≤ SBI) :
    ∃ shift reg r, cIndex r_pmc_cfg_sss_shifts (remote : Int) = some shift ∧
      extract32 w shift R_PMC_SSS_FIELD_LENGTH = some reg ∧
      pmc_get_sss_regfield s (remote : Int) = some r ∧
      (r = NO_REMOTE ↔ ∀ e, e ≤ PZM → mapping_code (remote : Int) e ≠ some reg) ∧
      (r ≠ NO_REMOTE → r ≤ PZM ∧ mapping_code (remote : Int) r = some reg) := by
  have h5 : remote ≤ 5 := hr
  obtain ⟨x, _, hx, hiff, hne⟩ :=
    loop_sentinel_or_match ⟨remote, by omega⟩ ⟨(w >>> (4 * remote)) &&& 15, field_lt _⟩
  exact ⟨_, _, x, shift_of remote hr, extract32_nat w (4 * remote) (by omega),
    (regfield_eq_loop s w remote hs hr).trans hx, hiff, hne⟩

theorem regfield_sentinel_iff_witness :
    ∃ shift reg r, cIndex r_pmc_cfg_sss_shifts ((AES : Nat) : Int) = some shift ∧
      extract32 0x2000 shift R_PMC_SSS_FIELD_LENGTH = some reg ∧
      pmc_get_sss_regfield ⟨[0x2000], []⟩ ((AES : Nat) : Int) = some r ∧
      (r = NO_REMOTE ↔ ∀ e, e ≤ PZM → mapping_code ((AES : Nat) : Int) e ≠ some reg) ∧
      (r ≠ NO_REMOTE → r ≤ PZM ∧ mapping_code ((AES : Nat) : Int) r = some reg) :=
  regfield_sentinel_iff ⟨[0x2000], []⟩ 0x2000 AES rfl (by decide)

/-- C3, refinement: on an addressable sink the resolver of the C code,
which scans the slots `0..PMC_NUM_REMOTES-1` and falls through to
`PMC_NUM_REMOTES`, returns the same value as the reference resolver that
scans all `PMC_NUM_REMOTES + 1` slots, and that value is defined. -/
theorem regfield_eq_resolve_ref (s : PMCSSS) (w remote : Nat)
    (hs : s.regs[R_CFG]? = some w) (hr : remote ≤ SBI) :
    pmc_get_sss_regfield s (remote : Int) = resolve_ref s (remote : Int) ∧
      (resolve_ref s (remote : Int)).isSome = true := by
  have h5 : remote ≤ 5 := hr
  obtain ⟨row, hrow⟩ := row_of remote hr
  have htab := loop_eq_reference ⟨remote, by omega⟩ ⟨(w >>> (4 * remote)) &&& 15, field_lt _⟩
  simp only [hrow, Option.map_some'] at htab
  have href : resolve_ref s (remote : Int) =
      some (resolve_ref_scan row ((w >>> (4 * remote)) &&& 15)) := by
    unfold resolve_ref
    rw [hs, shift_of remote hr, hrow]
    simp only [extract32_nat w (4 * remote) (by omega)]
  refine ⟨?_, ?_⟩
  · rw [href, regfield_eq_loop s w remote hs hr]
    exact htab.symm
  · rw [href]
    rfl

theorem regfield_eq_resolve_ref_witness :
    pmc_get_sss_regfield ⟨[0x00B00000], []⟩ ((SBI : Nat) : Int) =
        resolve_ref ⟨[0x00B00000], []⟩ ((SBI : Nat) : Int) ∧
      (resolve_ref ⟨[0x00B00000], []⟩ ((SBI : Nat) : Int)).isSome = true :=
  regfield_eq_resolve_ref ⟨[0x00B00000], []⟩ 0x00B00000 SBI rfl (by decide)

/-- C4, totality: on an addressable sink and any control word the resolver
takes no error branch: the shift-table index is in range, the
precondition of `extract32` holds and gives a 4-bit field, the row index
and every column index of the scan are in range, and the result is a value
in `0..7`, a defined endpoint or the sentinel. -/
theorem regfield_total (s : PMCSSS) (w remote : Nat) (hs : s.regs[R_CFG]? = some w)
    (hr : remote ≤ SBI) :
    ∃ shift reg e, cIndex r_pmc_cfg_sss_shifts (remote : Int) = some shift ∧
      (0 ≤ shift ∧ 0 < R_PMC_SSS_FIELD_LENGTH ∧ R_PMC_SSS_FIELD_LENGTH ≤ 32 - shift) ∧
      extract32 w shift R_PMC_SSS_FIELD_LENGTH = some reg ∧ reg < 16 ∧
      (∀ indx, indx < PMC_NUM_REMOTES → (mapping_code (remote : Int) indx).isSome = true) ∧
      pmc_get_sss_regfield s (remote : Int) = some e ∧ e ≤ NO_REMOTE := by
  have h5 : remote ≤ 5 := hr
  obtain ⟨x, hx8, hx⟩ :=
    loop_total ⟨remote, by omega⟩ ⟨(w >>> (4 * remote)) &&& 15, field_lt _⟩
  refine ⟨_, _, x, shift_of remote hr, field_precondition (4 * remote) (by omega),
    extract32_nat w (4 * remote) (by omega), field_lt _,
    columns_in_range ⟨remote, by omega⟩, (regfield_eq_loop s w remote hs hr).trans hx, ?_⟩
  show x ≤ 7
  omega

theorem regfield_total_witness :
    ∃ shift reg e, cIndex r_pmc_cfg_sss_shifts ((PTPI : Nat) : Int) = some shift ∧
      (0 ≤ shift ∧ 0 < R_PMC_SSS_FIELD_LENGTH ∧ R_PMC_SSS_FIELD_LENGTH ≤ 32 - shift) ∧
      extract32 0xDEADBEEF shift R_PMC_SSS_FIELD_LENGTH = some reg ∧ reg < 16 ∧
      (∀ indx, indx < PMC_NUM_REMOTES →
        (mapping_code ((PTPI : Nat) : Int) indx).isSome = true) ∧
      pmc_get_sss_regfield ⟨[0xDEADBEEF], []⟩ ((PTPI : Nat) : Int) = some e ∧ e ≤ NO_REMOTE :=
  regfield_total ⟨[0xDEADBEEF], []⟩ 0xDEADBEEF PTPI rfl (by decide)

/-! ## The tables against each other -/

theorem row_codes_distinct : ∀ r : Fin 6, ∀ e1 e2 : Fin 7, e1 ≠ e2 →
    mapping_code (r.val : Int) e1.val = some 0xFF ∨
      mapping_code (r.val : Int) e2.val = some 0xFF ∨
      mapping_code (r.val : Int) e1.val ≠ mapping_code (r.val : Int) e2.val := by
  decide

theorem mapping_code_none (sink e : Nat) (h : 6 ≤ sink) :
    mapping_code (sink : Int) e = none := by
  have hrow : cIndex pmc_sss_cfg_mapping (sink : Int) = none := by
    unfold cIndex
    rw [if_pos (by omega), Int.toNat_ofNat]
    exact List.getElem?_eq_none (by simpa [pmc_sss_cfg_mapping] using h)
  unfold mapping_code
  rw [hrow]

theorem valid_iff_legal : ∀ r : Fin 6, ∀ e : Fin 7,
    (mapping_code (r.val : Int) e.val).isSome = true ∧
      (population_bit (r.val : Int) e.val).isSome = true ∧
      (mapping_code (r.val : Int) e.val ≠ some 0xFF ↔
        population_bit (r.val : Int) e.val = some true) := by
  decide

theorem aes_table : ∀ v : Fin 16,
    pmc_get_sss_regfield_loop ((AES : Nat) : Int) v.val (PMC_NUM_REMOTES + 1) 0 =
      some (if v.val = 0xE then DMA0 else if v.val = 0x5 then DMA1 else NO_REMOTE) := by
  decide

theorem dma0_table : ∀ v : Fin 16,
    pmc_get_sss_regfield_loop ((DMA0 : Nat) : Int) v.val (PMC_NUM_REMOTES + 1) 0 =
      some (if v.val = 0x3 then PZM else if v.val = 0xD then DMA0
        else if v.val = 0x6 then AES else if v.val = 0xB then SBI else NO_REMOTE) := by
  decide

/-- C5, uniqueness: within a row of `pmc_sss_cfg_mapping`, two distinct
endpoints of `DMA0..PZM` whose entries are valid (not the marker `0xFF`)
have different codes. -/
theorem mapping_codes_injective (sink e1 e2 c1 c2 : Nat) (h1 : e1 ≤ PZM) (h2 : e2 ≤ PZM)
    (hne : e1 ≠ e2) (hc1 : mapping_code (sink : Int) e1 = some c1)
    (hc2 : mapping_code (sink : Int) e2 = some c2) (hv1 : c1 ≠ 0xFF) (hv2 : c2 ≠ 0xFF) :
    c1 ≠ c2 := by
  have h1' : e1 ≤ 6 := h1
  have h2' : e2 ≤ 6 := h2
  rcases Nat.lt_or_ge sink 6 with hs | hs
  · have htab := row_codes_distinct ⟨sink, hs⟩ ⟨e1, by omega⟩ ⟨e2, by omega⟩
      (by intro h; exact hne (congrArg Fin.val h))
    simp only [hc1, hc2] at htab
    rcases htab with h | h | h
    · exact absurd (Option.some.inj h) hv1
    · exact absurd (Option.some.inj h) hv2
    · intro heq
      exact h (congrArg some heq)
  · rw [mapping_code_none sink e1 hs] at hc1
    exact absurd hc1 (by simp)

theorem mapping_codes_injective_witness :
    (DMA0 ≤ PZM ∧ PZM ≤ PZM ∧ DMA0 ≠ PZM ∧
      mapping_code ((DMA0 : Nat) : Int) DMA0 = some 0xD ∧
      mapping_code ((DMA0 : Nat) : Int) PZM = some 0x3) ∧ (0xD : Nat) ≠ 0x3 :=
  ⟨by decide, mapping_codes_injective DMA0 DMA0 PZM 0xD 0x3 (by decide) (by decide) (by decide)
    (by decide) (by decide) (by decide) (by decide)⟩

/-- C6, topology and encoding agree: for an addressable sink `remote` and
an endpoint `e` in `DMA0..PZM`, the entry `pmc_sss_cfg_mapping[remote][e]`
is a valid code (not `0xFF`) if and only if bit `e` is set in
`pmc_sss_population[remote]`. -/
theorem mapping_valid_iff_population (remote e : Nat) (hr : remote ≤ SBI) (he : e ≤ PZM) :
    ∃ code bit, mapping_code (remote : Int) e = some code ∧
      population_bit (remote : Int) e = some bit ∧
      (code ≠ 0xFF ↔ bit = true) := by
  have h5 : remote ≤ 5 := hr
  have h6 : e ≤ 6 := he
  obtain ⟨hm, hp, hiff⟩ := valid_iff_legal ⟨remote, by omega⟩ ⟨e, by omega⟩
  obtain ⟨code, hcode⟩ := Option.isSome_iff_exists.mp hm
  obtain ⟨bit, hbit⟩ := Option.isSome_iff_exists.mp hp
  simp only at hcode hbit hiff
  refine ⟨code, bit, hcode, hbit, ?_⟩
  rw [hcode, hbit] at hiff
  simpa using hiff

theorem mapping_valid_iff_population_witness :
    (DMA1 ≤ SBI ∧ SBI ≤ PZM) ∧
    ∃ code bit, mapping_code ((DMA1 : Nat) : Int) SBI = some code ∧
      population_bit ((DMA1 : Nat) : Int) SBI = some bit ∧
      (code ≠ 0xFF ↔ bit = true) :=
  ⟨by decide, mapping_valid_iff_population DMA1 SBI (by decide) (by decide)⟩

/-- C7, the decode table of sink `AES`: with `v` the value of bits `12..15`
of the control word, the resolver returns `DMA0` when `v = 0xE`, `DMA1`
when `v = 0x5` and the sentinel `NO_REMOTE` for every other `v`, whatever
the other bits of the word are. -/
theorem regfield_aes_decode (s : PMCSSS) (w : Nat) (hs : s.regs[R_CFG]? = some w) :
    pmc_get_sss_regfield s ((AES : Nat) : Int) =
      some (if w / 2 ^ 12 % 16 = 0xE then DMA0
        else if w / 2 ^ 12 % 16 = 0x5 then DMA1 else NO_REMOTE) := by
  have h := regfield_eq_loop s w AES hs (by decide)
  have e : 4 * AES = 12 := rfl
  rw [field_eq_div_mod, e] at h
  rw [h]
  exact aes_table ⟨w / 2 ^ 12 % 16, Nat.mod_lt _ (by norm_num)⟩

theorem regfield_aes_decode_witness :
    (PMCSSS.mk [0xFFFF2FFF] []).regs[R_CFG]? = some 0xFFFF2FFF ∧
    pmc_get_sss_regfield ⟨[0xFFFF2FFF], []⟩ ((AES : Nat) : Int) =
      some (if 0xFFFF2FFF / 2 ^ 12 % 16 = 0xE then DMA0
        else if 0xFFFF2FFF / 2 ^ 12 % 16 = 0x5 then DMA1 else NO_REMOTE) :=
  ⟨rfl, regfield_aes_decode ⟨[0xFFFF2FFF], []⟩ 0xFFFF2FFF rfl⟩

/-- C8, the decode table of sink `DMA0`: with `v` the value of bits `0..3`
of the control word, the resolver returns `PZM` when `v = 0x3`, `DMA0`
when `v = 0xD`, `AES` when `v = 0x6`, `SBI` when `v = 0xB` and the sentinel
`NO_REMOTE` for every other `v`. -/
theorem regfield_dma0_decode (s : PMCSSS) (w : Nat) (hs : s.regs[R_CFG]? = some w) :
    pmc_get_sss_regfield s ((DMA0 : Nat) : Int) =
      some (if w % 16 = 0x3 then PZM else if w % 16 = 0xD then DMA0
        else if w % 16 = 0x6 then AES else if w % 16 = 0xB then SBI else NO_REMOTE) := by
  have h := regfield_eq_loop s w DMA0 hs (by decide)
  have e : 4 * DMA0 = 0 := rfl
  rw [field_eq_div_mod, e, pow_zero, Nat.div_one] at h
  rw [h]
  exact dma0_table ⟨w % 16, Nat.mod_lt _ (by norm_num)⟩

theorem regfield_dma0_decode_witness :
    (PMCSSS.mk [0x00000003] []).regs[R_CFG]? = some 0x00000003 ∧
    pmc_get_sss_regfield ⟨[0x00000003], []⟩ ((DMA0 : Nat) : Int) =
      some (if 0x00000003 % 16 = 0x3 then PZM else if 0x00000003 % 16 = 0xD then DMA0
        else if 0x00000003 % 16 = 0x6 then AES
        else if 0x00000003 % 16 = 0xB then SBI else NO_REMOTE) :=
  ⟨rfl, regfield_dma0_decode ⟨[0x00000003], []⟩ 0x00000003 rfl⟩

/-! ## Reset and write -/

theorem regs_singleton (s : PMCSSS) (hlen : s.regs.length = R_MAX) :
    ∃ old, s.regs = [old] := by
  have h1 : s.regs.length = 1 := hlen
  exact List.length_eq_one.mp h1

theorem sss_reset_eq (s : PMCSSS) (hlen : s.regs.length = R_MAX) :
    sss_reset s = some { regs := [0], notifies := s.notifies ++ [[0]] } := by
  obtain ⟨old, hold⟩ := regs_singleton s hlen
  obtain ⟨regs, n⟩ := s
  simp only at hold
  subst hold
  rfl

theorem no_zero_code_sentinel : ∀ r : Fin 6,
    (∀ e, e ≤ PZM → mapping_code (r.val : Int) e ≠ some 0) →
      pmc_get_sss_regfield_loop (r.val : Int) 0 (PMC_NUM_REMOTES + 1) 0 = some NO_REMOTE := by
  decide

theorem and_ones32 (v : Nat) (hv : v < 2 ^ 32) : v &&& 0xFFFFFFFF = v := by
  have h := Nat.and_pow_two_sub_one_eq_mod v 32
  rw [Nat.mod_eq_of_lt hv] at h
  simpa using h

/-- C9, reset state: on a state whose register file has its `R_MAX` words,
`sss_reset` returns a state whose control word `regs[R_CFG]` is `0`, and in
it the resolver returns the sentinel `NO_REMOTE` for every addressable sink
whose row holds the code `0x0` at no endpoint slot. -/
theorem sss_reset_state (s : PMCSSS) (hlen : s.regs.length = R_MAX) :
    ∃ s', sss_reset s = some s' ∧ s'.regs[R_CFG]? = some 0 ∧
      ∀ remote : Nat, remote ≤ SBI →
        (∀ e, e ≤ PZM → mapping_code (remote : Int) e ≠ some 0) →
          pmc_get_sss_regfield s' (remote : Int) = some NO_REMOTE := by
  refine ⟨_, sss_reset_eq s hlen, rfl, fun remote hr hrow => ?_⟩
  have h5 : remote ≤ 5 := hr
  rw [regfield_eq_loop { regs := [0], notifies := s.notifies ++ [[0]] } 0 remote rfl hr]
  have hz : (0 >>> (4 * remote)) &&& 15 = 0 := by simp
  rw [hz]
  exact no_zero_code_sentinel ⟨remote, by omega⟩ hrow

theorem sss_reset_state_witness :
    (PMCSSS.mk [0x00B05E6D] []).regs.length = R_MAX ∧
    ∃ s', sss_reset ⟨[0x00B05E6D], []⟩ = some s' ∧ s'.regs[R_CFG]? = some 0 ∧
      ∀ remote : Nat, remote ≤ SBI →
        (∀ e, e ≤ PZM → mapping_code (remote : Int) e ≠ some 0) →
          pmc_get_sss_regfield s' (remote : Int) = some NO_REMOTE :=
  ⟨rfl, sss_reset_state ⟨[0x00B05E6D], []⟩ rfl⟩

/-- C10, write replaces the control word: the read-only mask of `R_CFG` is
`0x00000000`, and on a state whose register file has its `R_MAX` words a
register write of a 32-bit value `v` to `R_CFG` returns a state whose
control word is exactly `v`, whatever the old word was. -/
theorem dep_register_write_replaces (s : PMCSSS) (v : Nat) (hlen : s.regs.length = R_MAX)
    (hv : v < 2 ^ 32) :
    (∃ ac, pmc_sss_regs_info[R_CFG]? = some ac ∧ ac.ro = 0x00000000) ∧
      ∃ s', dep_register_write s R_CFG v = some s' ∧ s'.regs[R_CFG]? = some v := by
  obtain ⟨old, hold⟩ := regs_singleton s hlen
  obtain ⟨regs, n⟩ := s
  simp only at hold
  subst hold
  refine ⟨⟨_, rfl, rfl⟩, ⟨{ regs := [v], notifies := n ++ [[v]] }, ?_, rfl⟩⟩
  simp [dep_register_write, pmc_sss_regs_info, R_CFG, r_cfg_post_write, sss_notify_all,
    and_ones32 v hv]

theorem dep_register_write_replaces_witness :
    ((PMCSSS.mk [0xFFFFFFFF] []).regs.length = R_MAX ∧ 0x00E00005 < 2 ^ 32) ∧
    (∃ ac, pmc_sss_regs_info[R_CFG]? = some ac ∧ ac.ro = 0x00000000) ∧
      ∃ s', dep_register_write ⟨[0xFFFFFFFF], []⟩ R_CFG 0x00E00005 = some s' ∧
        s'.regs[R_CFG]? = some 0x00E00005 :=
  ⟨by decide, dep_register_write_replaces ⟨[0xFFFFFFFF], []⟩ 0x00E00005 rfl (by decide)⟩

/-! ## Notifications, reset twice, and the field layout -/

theorem dep_register_write_eq (s : PMCSSS) (v : Nat) (hlen : s.regs.length = R_MAX)
    (hv : v < 2 ^ 32) :
    dep_register_write s R_CFG v = some { regs := [v], notifies := s.notifies ++ [[v]] } := by
  obtain ⟨old, hold⟩ := regs_singleton s hlen
  obtain ⟨regs, n⟩ := s
  simp only at hold
  subst hold
  simp [dep_register_write, pmc_sss_regs_info, R_CFG, r_cfg_post_write, sss_notify_all,
    and_ones32 v hv]

theorem sss_reset_loop_eq (s : PMCSSS) (hlen : s.regs.length = R_MAX) :
    sss_reset_loop (R_MAX + 1) s 0 = some { regs := [0], notifies := s.notifies } := by
  obtain ⟨old, hold⟩ := regs_singleton s hlen
  obtain ⟨regs, n⟩ := s
  simp only at hold
  subst hold
  rfl

/-- C11, notification count: the hook of `R_CFG` is `r_cfg_post_write`,
which is one call of `sss_notify_all`.  A register write of a 32-bit value
`v` to `R_CFG`, whatever the old word (also when `v` is the old word),
adds exactly one entry to the log of broadcasts, and that entry shows the
register file already holding `v`: the one broadcast is sent after the
word is stored.  In the same way `sss_reset` adds exactly one entry, which
shows the register file already holding the reset word `0`. -/
theorem notify_exactly_once (s : PMCSSS) (v : Nat) (hlen : s.regs.length = R_MAX)
    (hv : v < 2 ^ 32) :
    (∃ ac hook, pmc_sss_regs_info[R_CFG]? = some ac ∧ ac.post_write = some hook ∧
        ∀ t x, hook t x = r_cfg_post_write t x ∧ r_cfg_post_write t x = sss_notify_all t) ∧
      (∃ s', dep_register_write s R_CFG v = some s' ∧ s'.regs = [v] ∧
        s'.notifies = s.notifies ++ [[v]] ∧
        s'.notifies.length = s.notifies.length + 1) ∧
      (∃ s', sss_reset s = some s' ∧ s'.regs = [0] ∧
        s'.notifies = s.notifies ++ [[0]] ∧
        s'.notifies.length = s.notifies.length + 1) := by
  refine ⟨⟨_, r_cfg_post_write, rfl, rfl, fun t x => ⟨rfl, rfl⟩⟩, ?_, ?_⟩
  · exact ⟨_, dep_register_write_eq s v hlen hv, rfl, rfl, by simp⟩
  · exact ⟨_, sss_reset_eq s hlen, rfl, rfl, by simp⟩

theorem notify_exactly_once_witness :
    ((PMCSSS.mk [0x00005000] [[0x00005000]]).regs.length = R_MAX ∧ 0x00E00005 < 2 ^ 32) ∧
    ((∃ ac hook, pmc_sss_regs_info[R_CFG]? = some ac ∧ ac.post_write = some hook ∧
        ∀ t x, hook t x = r_cfg_post_write t x ∧ r_cfg_post_write t x = sss_notify_all t) ∧
      (∃ s', dep_register_write ⟨[0x00005000], [[0x00005000]]⟩ R_CFG 0x00E00005 = some s' ∧
        s'.regs = [0x00E00005] ∧
        s'.notifies = [[0x00005000]] ++ [[0x00E00005]] ∧
        s'.notifies.length = [[0x00005000]].length + 1) ∧
      (∃ s', sss_reset ⟨[0x00005000], [[0x00005000]]⟩ = some s' ∧ s'.regs = [0] ∧
        s'.notifies = [[0x00005000]] ++ [[0]] ∧
        s'.notifies.length = [[0x00005000]].length + 1)) :=
  ⟨by decide,
    notify_exactly_once ⟨[0x00005000], [[0x00005000]]⟩ 0x00E00005 rfl (by decide)⟩

/-- C12, reset idempotence: from a state whose register file has its
`R_MAX` words, `sss_reset` followed by `sss_reset` leaves the same control
word as a single `sss_reset`, and the resolver returns the same, defined,
result in both states for every addressable sink. -/
theorem sss_reset_idempotent (s : PMCSSS) (hlen : s.regs.length = R_MAX) :
    ∃ s1 s2, sss_reset s = some s1 ∧ sss_reset s1 = some s2 ∧
      s2.regs = s1.regs ∧ s2.regs[R_CFG]? = s1.regs[R_CFG]? ∧
      ∀ remote : Nat, remote ≤ SBI →
        pmc_get_sss_regfield s2 (remote : Int) = pmc_get_sss_regfield s1 (remote : Int) ∧
          (pmc_get_sss_regfield s1 (remote : Int)).isSome = true := by
  refine ⟨{ regs := [0], notifies := s.notifies ++ [[0]] },
    { regs := [0], notifies := s.notifies ++ [[0]] ++ [[0]] }, sss_reset_eq s hlen,
    sss_reset_eq _ rfl, rfl, rfl, fun remote hr => ?_⟩
  have h5 : remote ≤ 5 := hr
  obtain ⟨x, _, hx⟩ :=
    loop_total ⟨remote, by omega⟩ ⟨(0 >>> (4 * remote)) &&& 15, field_lt _⟩
  rw [regfield_eq_loop { regs := [0], notifies := s.notifies ++ [[0]] ++ [[0]] } 0 remote rfl hr,
    regfield_eq_loop { regs := [0], notifies := s.notifies ++ [[0]] } 0 remote rfl hr]
  refine ⟨rfl, ?_⟩
  rw [hx]
  rfl

theorem sss_reset_idempotent_witness :
    (PMCSSS.mk [0x00B05E6D] []).regs.length = R_MAX ∧
    ∃ s1 s2, sss_reset ⟨[0x00B05E6D], []⟩ = some s1 ∧ sss_reset s1 = some s2 ∧
      s2.regs = s1.regs ∧ s2.regs[R_CFG]? = s1.regs[R_CFG]? ∧
      ∀ remote : Nat, remote ≤ SBI →
        pmc_get_sss_regfield s2 (remote : Int) = pmc_get_sss_regfield s1 (remote : Int) ∧
          (pmc_get_sss_regfield s1 (remote : Int)).isSome = true :=
  ⟨rfl, sss_reset_idempotent ⟨[0x00B05E6D], []⟩ rfl⟩

/-- C13, field layout: `r_pmc_cfg_sss_shifts` gives the sinks `DMA0`,
`DMA1`, `PTPI`, `AES`, `SHA`, `SBI` the offsets `0, 4, 8, 12, 16, 20`, four
times the ordinal, and gives `PZM` the marker `-1`; the field length is
`4`, the six fields are pairwise disjoint, and each lies inside bits
`0..23`. -/
theorem shifts_layout :
    (cIndex r_pmc_cfg_sss_shifts ((DMA0 : Nat) : Int) = some 0 ∧
      cIndex r_pmc_cfg_sss_shifts ((DMA1 : Nat) : Int) = some 4 ∧
      cIndex r_pmc_cfg_sss_shifts ((PTPI : Nat) : Int) = some 8 ∧
      cIndex r_pmc_cfg_sss_shifts ((AES : Nat) : Int) = some 12 ∧
      cIndex r_pmc_cfg_sss_shifts ((SHA : Nat) : Int) = some 16 ∧
      cIndex r_pmc_cfg_sss_shifts ((SBI : Nat) : Int) = some 20 ∧
      cIndex r_pmc_cfg_sss_shifts ((PZM : Nat) : Int) = some (-1)) ∧
    (∀ r : Nat, r ≤ SBI →
      cIndex r_pmc_cfg_sss_shifts (r : Int) = some ((4 * r : Nat) : Int)) ∧
    R_PMC_SSS_FIELD_LENGTH = 4 ∧
    (∀ r1 r2 : Nat, r1 ≤ SBI → r2 ≤ SBI → r1 ≠ r2 → ∀ s1 s2 : Int,
      cIndex r_pmc_cfg_sss_shifts (r1 : Int) = some s1 →
      cIndex r_pmc_cfg_sss_shifts (r2 : Int) = some s2 →
        s1 + R_PMC_SSS_FIELD_LENGTH ≤ s2 ∨ s2 + R_PMC_SSS_FIELD_LENGTH ≤ s1) ∧
    (∀ r : Nat, r ≤ SBI → ∀ sh : Int,
      cIndex r_pmc_cfg_sss_shifts (r : Int) = some sh →
        0 ≤ sh ∧ sh + R_PMC_SSS_FIELD_LENGTH ≤ 24) := by
  refine ⟨by decide, shift_of, rfl, ?_, ?_⟩
  · intro r1 r2 h1 h2 hne s1 s2 e1 e2
    have h1' : r1 ≤ 5 := h1
    have h2' : r2 ≤ 5 := h2
    rw [shift_of r1 h1] at e1
    rw [shift_of r2 h2] at e2
    have q1 := Option.some.inj e1
    have q2 := Option.some.inj e2
    have hlen : R_PMC_SSS_FIELD_LENGTH = 4 := rfl
    rw [hlen, ← q1, ← q2]
    omega
  · intro r h sh e
    have h' : r ≤ 5 := h
    rw [shift_of r h] at e
    have q := Option.some.inj e
    have hlen : R_PMC_SSS_FIELD_LENGTH = 4 := rfl
    rw [hlen, ← q]
    omega

/-! ## Sinks outside the resolver's domain -/

theorem shift_none_of_out_of_range (remote : Int)
    (h : remote < 0 ∨ (PMC_NUM_REMOTES : Int) ≤ remote) :
    cIndex r_pmc_cfg_sss_shifts remote = none := by
  unfold cIndex
  rcases h with h | h
  · rw [if_neg (by omega)]
  · have h7 : (7 : Int) ≤ remote := h
    rw [if_pos (by omega)]
    apply List.getElem?_eq_none
    show 7 ≤ remote.toNat
    omega

theorem regfield_none_of_shift_none (s : PMCSSS) (remote : Int)
    (h : cIndex r_pmc_cfg_sss_shifts remote = none) :
    pmc_get_sss_regfield s remote = none := by
  unfold pmc_get_sss_regfield
  rw [h]
  cases s.regs[R_CFG]? <;> rfl

theorem extract32_neg_one (w : Nat) : extract32 w (-1) R_PMC_SSS_FIELD_LENGTH = none := by
  unfold extract32
  rw [if_neg (by decide)]

theorem regfield_pzm_none (s : PMCSSS) : pmc_get_sss_regfield s ((PZM : Nat) : Int) = none := by
  have hshift : cIndex r_pmc_cfg_sss_shifts ((PZM : Nat) : Int) = some (-1) := rfl
  unfold pmc_get_sss_regfield
  rw [hshift]
  cases s.regs[R_CFG]? with
  | none => rfl
  | some w =>
    simp only [extract32_neg_one w]

theorem code5_tables :
    pmc_get_sss_regfield_loop ((AES : Nat) : Int) 5 (PMC_NUM_REMOTES + 1) 0 = some DMA1 ∧
      pmc_get_sss_regfield_loop ((SBI : Nat) : Int) 5 (PMC_NUM_REMOTES + 1) 0 = some DMA0 := by
  decide

theorem row_none_of_out_of_range (remote : Int)
    (h : remote < 0 ∨ (PMC_NUM_REMOTES : Int) ≤ remote) :
    cIndex pmc_sss_cfg_mapping remote = none := by
  unfold cIndex
  rcases h with h | h
  · rw [if_neg (by omega)]
  · have h7 : (7 : Int) ≤ remote := h
    rw [if_pos (by omega)]
    apply List.getElem?_eq_none
    show 6 ≤ remote.toNat
    omega

theorem cRead_outside {α : Type} (outside : Int → α) (xs : List α) (i : Int)
    (h : cIndex xs i = none) : cRead outside xs i = outside i := by
  unfold cRead
  rw [h]

theorem mapping_read_outside (m : Surroundings) (remote : Int) (indx : Nat)
    (h : cIndex pmc_sss_cfg_mapping remote = none) :
    mapping_read m remote indx = m.code_outside remote indx % 256 := by
  unfold mapping_read
  rw [h]

/-- The unchecked scan, from any start `indx ≤ 7` and with enough fuel,
ends at the first index from `indx` on whose read code is `reg`, or at
`7`. -/
theorem unchecked_loop_spec (m : Surroundings) (remote : Int) (reg : Nat) :
    ∀ fuel indx, indx ≤ 7 → 7 - indx < fuel →
      ∃ e, pmc_get_sss_regfield_unchecked_loop m remote reg fuel indx = some e ∧
        indx ≤ e ∧ e ≤ 7 ∧
        (∀ j, indx ≤ j → j < e → mapping_read m remote j ≠ reg) ∧
        (e < 7 → mapping_read m remote e = reg) := by
  intro fuel
  induction fuel with
  | zero => intro indx _ h; omega
  | succ fuel ih =>
    intro indx hle hfuel
    unfold pmc_get_sss_regfield_unchecked_loop
    by_cases hlt : indx < PMC_NUM_REMOTES
    · rw [if_pos hlt]
      have hlt7 : indx < 7 := hlt
      by_cases hreg : reg = mapping_read m remote indx
      · rw [if_pos hreg]
        exact ⟨indx, rfl, le_refl _, hle, fun j h1 h2 => by omega, fun _ => hreg.symm⟩
      · rw [if_neg hreg]
        obtain ⟨e, he, h1, h2, h3, h4⟩ := ih (indx + 1) (by omega) (by omega)
        refine ⟨e, he, by omega, h2, fun j hj1 hj2 => ?_, h4⟩
        rcases Nat.eq_or_lt_of_le hj1 with hj | hj
        · subst hj
          exact fun hc => hreg hc.symm
        · exact h3 j (by omega) hj2
    · rw [if_neg hlt]
      have hge : ¬ indx < 7 := hlt
      exact ⟨indx, rfl, le_refl _, hle, fun j h1 h2 => by omega, fun h => by omega⟩

theorem unchecked_loop_eq (m : Surroundings) : ∀ r : Fin 6, ∀ v : Fin 16,
    pmc_get_sss_regfield_unchecked_loop m (r.val : Int) v.val (PMC_NUM_REMOTES + 1) 0 =
      pmc_get_sss_regfield_loop (r.val : Int) v.val (PMC_NUM_REMOTES + 1) 0 := by
  intro r v
  fin_cases r <;> fin_cases v <;> rfl

/-- On the sinks `DMA0..PZM`, where every read is inside its table, the
function with unchecked reads is the resolver of the embedding, whatever
the surroundings hold. -/
theorem unchecked_eq_on_endpoints (m : Surroundings) (s : PMCSSS) (remote : Nat)
    (hr : remote ≤ PZM) :
    pmc_get_sss_regfield_unchecked m s (remote : Int) =
      pmc_get_sss_regfield s (remote : Int) := by
  have h6 : remote ≤ 6 := hr
  cases hs : s.regs[R_CFG]? with
  | none =>
    unfold pmc_get_sss_regfield_unchecked pmc_get_sss_regfield
    rw [hs]
  | some w =>
    rcases Nat.eq_or_lt_of_le h6 with h | h
    · subst h
      have hpzm : pmc_get_sss_regfield s ((6 : Nat) : Int) = none := regfield_pzm_none s
      rw [hpzm]
      have hshift : cRead m.shift_outside r_pmc_cfg_sss_shifts ((6 : Nat) : Int) = -1 := rfl
      unfold pmc_get_sss_regfield_unchecked
      rw [hs]
      simp only [hshift, extract32_neg_one w]
    · have h5 : remote ≤ SBI := by
        show remote ≤ 5
        omega
      have hshift : cRead m.shift_outside r_pmc_cfg_sss_shifts (remote : Int) =
          ((4 * remote : Nat) : Int) := by
        unfold cRead
        rw [shift_of remote h5]
      rw [regfield_eq_loop s w remote hs h5]
      unfold pmc_get_sss_regfield_unchecked
      rw [hs]
      simp only [hshift, extract32_nat w (4 * remote) (by omega)]
      exact unchecked_loop_eq m ⟨remote, by omega⟩ ⟨(w >>> (4 * remote)) &&& 15, field_lt _⟩

/-- C14 as stated fails: the C function makes no test of `remote`.  At the
out-of-range sink `-1`, in a memory that holds zeros around the tables, it
returns the endpoint `DMA0` for the control word `0x00000000` and the
sentinel for the control word `0x0000000F`: a routing result, and no
invalid-argument condition. -/
theorem regfield_out_of_range_counterexample :
    ((-1 : Int) < 0 ∨ (PMC_NUM_REMOTES : Int) ≤ -1) ∧
    pmc_get_sss_regfield_unchecked zero_surroundings ⟨[0x00000000], []⟩ (-1) = some DMA0 ∧
    pmc_get_sss_regfield_unchecked zero_surroundings ⟨[0x0000000F], []⟩ (-1) =
      some NO_REMOTE := by
  decide

/-- C14, amended: for a sink argument outside the endpoint set
(`remote < 0` or `remote ≥ PMC_NUM_REMOTES`) both table reads fall outside
the tables, and the function, which makes no test of `remote`, goes on
with what these reads deliver, whatever it is: when the value read as the
shift fails the precondition of `extract32` it stops on that assertion,
and otherwise it returns a value `e` in `0..PMC_NUM_REMOTES`, the first
index whose read code equals the extracted field, or the sentinel. -/
theorem regfield_unchecked_out_of_range (m : Surroundings) (s : PMCSSS) (w : Nat)
    (remote : Int) (hs : s.regs[R_CFG]? = some w)
    (h : remote < 0 ∨ (PMC_NUM_REMOTES : Int) ≤ remote) :
    (cIndex r_pmc_cfg_sss_shifts remote = none ∧
      cIndex pmc_sss_cfg_mapping remote = none) ∧
    (extract32 w (m.shift_outside remote) R_PMC_SSS_FIELD_LENGTH = none →
      pmc_get_sss_regfield_unchecked m s remote = none) ∧
    (∀ reg, extract32 w (m.shift_outside remote) R_PMC_SSS_FIELD_LENGTH = some reg →
      ∃ e, pmc_get_sss_regfield_unchecked m s remote = some e ∧ e ≤ NO_REMOTE ∧
        (∀ j, j < e → m.code_outside remote j % 256 ≠ reg) ∧
        (e < PMC_NUM_REMOTES → m.code_outside remote e % 256 = reg)) := by
  have hshift := shift_none_of_out_of_range remote h
  have hrow := row_none_of_out_of_range remote h
  have hread := cRead_outside m.shift_outside r_pmc_cfg_sss_shifts remote hshift
  refine ⟨⟨hshift, hrow⟩, fun hnone => ?_, fun reg hreg => ?_⟩
  · unfold pmc_get_sss_regfield_unchecked
    rw [hs]
    simp only [hread, hnone]
  · obtain ⟨e, he, _, hle, hbefore, hat⟩ :=
      unchecked_loop_spec m remote reg (PMC_NUM_REMOTES + 1) 0 (by omega)
        (by show 7 - 0 < 7 + 1; omega)
    refine ⟨e, ?_, hle, fun j hj => ?_, fun hlt => ?_⟩
    · unfold pmc_get_sss_regfield_unchecked
      rw [hs]
      simp only [hread, hreg]
      exact he
    · rw [← mapping_read_outside m remote j hrow]
      exact hbefore j (Nat.zero_le j) hj
    · rw [← mapping_read_outside m remote e hrow]
      exact hat hlt

theorem regfield_unchecked_out_of_range_witness :
    ((PMCSSS.mk [0x00005003] []).regs[R_CFG]? = some 0x00005003 ∧
      ((7 : Int) < 0 ∨ (PMC_NUM_REMOTES : Int) ≤ 7)) ∧
    ((cIndex r_pmc_cfg_sss_shifts 7 = none ∧ cIndex pmc_sss_cfg_mapping 7 = none) ∧
    (extract32 0x00005003 (zero_surroundings.shift_outside 7) R_PMC_SSS_FIELD_LENGTH = none →
      pmc_get_sss_regfield_unchecked zero_surroundings ⟨[0x00005003], []⟩ 7 = none) ∧
    (∀ reg,
      extract32 0x00005003 (zero_surroundings.shift_outside 7) R_PMC_SSS_FIELD_LENGTH =
          some reg →
      ∃ e, pmc_get_sss_regfield_unchecked zero_surroundings ⟨[0x00005003], []⟩ 7 = some e ∧
        e ≤ NO_REMOTE ∧
        (∀ j, j < e → zero_surroundings.code_outside 7 j % 256 ≠ reg) ∧
        (e < PMC_NUM_REMOTES → zero_surroundings.code_outside 7 e % 256 = reg))) :=
  ⟨by decide,
    regfield_unchecked_out_of_range zero_surroundings ⟨[0x00005003], []⟩ 0x00005003 7 rfl
      (by decide)⟩

/-- C15, codes are row-local: the two distinct addressable sinks `AES` and
`SBI` and the 4-bit code `0x5` are such that, whatever the rest of the
word, with `0x5` in the field of `AES` the resolver returns `DMA1` for
`AES`, and with `0x5` in the field of `SBI` it returns `DMA0` for `SBI`:
two different endpoints, neither the sentinel. -/
theorem codes_row_local :
    ∃ s1 s2 c e1 e2 : Nat,
      (s1 = AES ∧ s2 = SBI ∧ c = 0x5 ∧ e1 = DMA1 ∧ e2 = DMA0) ∧
      s1 ≤ SBI ∧ s2 ≤ SBI ∧ s1 ≠ s2 ∧ c < 16 ∧
      e1 ≠ NO_REMOTE ∧ e2 ≠ NO_REMOTE ∧ e1 ≠ e2 ∧
      ∀ w : Nat, ∃ sh1 sh2 w1 w2,
        cIndex r_pmc_cfg_sss_shifts (s1 : Int) = some sh1 ∧
        cIndex r_pmc_cfg_sss_shifts (s2 : Int) = some sh2 ∧
        deposit32 w sh1 R_PMC_SSS_FIELD_LENGTH c = some w1 ∧
        deposit32 w sh2 R_PMC_SSS_FIELD_LENGTH c = some w2 ∧
        (∀ st : PMCSSS, st.regs[R_CFG]? = some w1 →
          pmc_get_sss_regfield st (s1 : Int) = some e1) ∧
        (∀ st : PMCSSS, st.regs[R_CFG]? = some w2 →
          pmc_get_sss_regfield st (s2 : Int) = some e2) := by
  refine ⟨AES, SBI, 0x5, DMA1, DMA0, ⟨rfl, rfl, rfl, rfl, rfl⟩, by decide, by decide,
    by decide, by decide, by decide, by decide, by decide, fun w => ?_⟩
  refine ⟨_, _, _, _, shift_of AES (by decide), shift_of SBI (by decide),
    deposit32_nat w (4 * AES) 5 (by decide), deposit32_nat w (4 * SBI) 5 (by decide),
    fun st hst => ?_, fun st hst => ?_⟩
  · rw [regfield_eq_loop st _ AES hst (by decide),
      extract_deposit w (4 * AES) 5 (by decide) (by decide)]
    exact code5_tables.1
  · rw [regfield_eq_loop st _ SBI hst (by decide),
      extract_deposit w (4 * SBI) 5 (by decide) (by decide)]
    exact code5_tables.2

/-! ## Field independence and the topology -/

theorem field_congr (w1 w2 n : Nat)
    (h : ∀ i, i < 4 → w1.testBit (n + i) = w2.testBit (n + i)) :
    (w1 >>> n) &&& 15 = (w2 >>> n) &&& 15 := by
  apply Nat.eq_of_testBit_eq
  intro i
  simp only [Nat.testBit_and, Nat.testBit_shiftRight, testBit_15]
  by_cases hi : i < 4
  · rw [h i hi]
  · simp [hi]

theorem deposit_other_bits (w n c j : Nat) (hj : j < 32) (hout : j < n ∨ n + 4 ≤ j) :
    ((w &&& (0xFFFFFFFF ^^^ (15 <<< n))) ||| ((c <<< n) &&& (15 <<< n))).testBit j =
      w.testBit j := by
  simp only [Nat.testBit_and, Nat.testBit_or, Nat.testBit_shiftLeft, Nat.testBit_xor,
    testBit_15, testBit_ones32]
  have hfield : ¬ (n ≤ j ∧ j - n < 4) := by omega
  by_cases hn : n ≤ j
  · have h4 : ¬ (j - n < 4) := fun h => hfield ⟨hn, h⟩
    simp [hj, hn, h4]
  · simp [hj, hn]

theorem testBit_of_mod_eq (w1 w2 j : Nat) (h : w2 % 2 ^ 24 = w1 % 2 ^ 24) (hj : j < 24) :
    w1.testBit j = w2.testBit j := by
  have e1 := Nat.testBit_mod_two_pow w1 24 j
  have e2 := Nat.testBit_mod_two_pow w2 24 j
  rw [h] at e2
  simp only [hj, decide_True, Bool.true_and] at e1 e2
  rw [← e1, ← e2]

theorem loop_sound : ∀ r : Fin 6, ∀ v : Fin 16, ∀ x : Fin 8,
    pmc_get_sss_regfield_loop (r.val : Int) v.val (PMC_NUM_REMOTES + 1) 0 = some x.val →
      x.val ≠ NO_REMOTE →
        v.val ≠ 0xFF ∧ mapping_code (r.val : Int) x.val = some v.val ∧
          population_bit (r.val : Int) x.val = some true := by
  decide

theorem self_bits : ∀ s, s ≤ PZM →
    (population_bit (s : Int) s = some true ↔ s = DMA0 ∨ s = DMA1) := by
  decide

/-- C16, field independence: an addressable sink has a shift, the resolver
is defined on the state, and it returns the same result on every state
whose control word agrees with `w1` on the four bits from the shift on; in
particular on a word got from `w1` by depositing any code in another
sink's field, and on a word that differs from `w1` only above bit 23. -/
theorem regfield_field_independent (st1 : PMCSSS) (w1 remote : Nat)
    (h1 : st1.regs[R_CFG]? = some w1) (hr : remote ≤ SBI) :
    ∃ shift : Nat, cIndex r_pmc_cfg_sss_shifts (remote : Int) = some (shift : Int) ∧
      (pmc_get_sss_regfield st1 (remote : Int)).isSome = true ∧
      (∀ (st2 : PMCSSS) (w2 : Nat), st2.regs[R_CFG]? = some w2 →
        (∀ i, i < 4 → w1.testBit (shift + i) = w2.testBit (shift + i)) →
          pmc_get_sss_regfield st2 (remote : Int) = pmc_get_sss_regfield st1 (remote : Int)) ∧
      (∀ (other c : Nat) (sh : Int) (st2 : PMCSSS) (w2 : Nat), other ≤ SBI → other ≠ remote →
        cIndex r_pmc_cfg_sss_shifts (other : Int) = some sh →
        deposit32 w1 sh R_PMC_SSS_FIELD_LENGTH c = some w2 →
        st2.regs[R_CFG]? = some w2 →
          pmc_get_sss_regfield st2 (remote : Int) = pmc_get_sss_regfield st1 (remote : Int)) ∧
      (∀ (st2 : PMCSSS) (w2 : Nat), st2.regs[R_CFG]? = some w2 →
        w2 % 2 ^ 24 = w1 % 2 ^ 24 →
          pmc_get_sss_regfield st2 (remote : Int) = pmc_get_sss_regfield st1 (remote : Int)) := by
  have h5 : remote ≤ 5 := hr
  have key : ∀ (st2 : PMCSSS) (w2 : Nat), st2.regs[R_CFG]? = some w2 →
      (∀ i, i < 4 → w1.testBit (4 * remote + i) = w2.testBit (4 * remote + i)) →
        pmc_get_sss_regfield st2 (remote : Int) = pmc_get_sss_regfield st1 (remote : Int) := by
    intro st2 w2 h2 hbits
    rw [regfield_eq_loop st2 w2 remote h2 hr, regfield_eq_loop st1 w1 remote h1 hr,
      field_congr w1 w2 (4 * remote) hbits]
  obtain ⟨x, _, hx⟩ :=
    loop_total ⟨remote, by omega⟩ ⟨(w1 >>> (4 * remote)) &&& 15, field_lt _⟩
  refine ⟨4 * remote, shift_of remote hr, ?_, key, ?_, ?_⟩
  · rw [regfield_eq_loop st1 w1 remote h1 hr, hx]
    rfl
  · intro other c sh st2 w2 ho hne hsh hdep h2
    have ho5 : other ≤ 5 := ho
    rw [shift_of other ho] at hsh
    rw [← Option.some.inj hsh, deposit32_nat w1 (4 * other) c (by omega)] at hdep
    have hw2 := Option.some.inj hdep
    refine key st2 w2 h2 (fun i hi => ?_)
    rw [← hw2, deposit_other_bits w1 (4 * other) c (4 * remote + i) (by omega) (by omega)]
  · intro st2 w2 h2 hmod
    exact key st2 w2 h2 (fun i hi => testBit_of_mod_eq w1 w2 (4 * remote + i) hmod (by omega))

theorem regfield_field_independent_witness :
    ((PMCSSS.mk [0x00005000] []).regs[R_CFG]? = some 0x00005000 ∧ AES ≤ SBI) ∧
    ∃ shift : Nat, cIndex r_pmc_cfg_sss_shifts ((AES : Nat) : Int) = some (shift : Int) ∧
      (pmc_get_sss_regfield ⟨[0x00005000], []⟩ ((AES : Nat) : Int)).isSome = true ∧
      (∀ (st2 : PMCSSS) (w2 : Nat), st2.regs[R_CFG]? = some w2 →
        (∀ i, i < 4 → Nat.testBit 0x00005000 (shift + i) = w2.testBit (shift + i)) →
          pmc_get_sss_regfield st2 ((AES : Nat) : Int) =
            pmc_get_sss_regfield ⟨[0x00005000], []⟩ ((AES : Nat) : Int)) ∧
      (∀ (other c : Nat) (sh : Int) (st2 : PMCSSS) (w2 : Nat), other ≤ SBI → other ≠ AES →
        cIndex r_pmc_cfg_sss_shifts (other : Int) = some sh →
        deposit32 0x00005000 sh R_PMC_SSS_FIELD_LENGTH c = some w2 →
        st2.regs[R_CFG]? = some w2 →
          pmc_get_sss_regfield st2 ((AES : Nat) : Int) =
            pmc_get_sss_regfield ⟨[0x00005000], []⟩ ((AES : Nat) : Int)) ∧
      (∀ (st2 : PMCSSS) (w2 : Nat), st2.regs[R_CFG]? = some w2 →
        w2 % 2 ^ 24 = 0x00005000 % 2 ^ 24 →
          pmc_get_sss_regfield st2 ((AES : Nat) : Int) =
            pmc_get_sss_regfield ⟨[0x00005000], []⟩ ((AES : Nat) : Int)) :=
  ⟨by decide, regfield_field_independent ⟨[0x00005000], []⟩ 0x00005000 AES rfl (by decide)⟩

/-- C17 as stated fails: the rows of `DMA0` and `DMA1` hold the codes `0xD`
and `0x9` at the sink's own index, but bit `DMA0` is set in
`pmc_sss_population[DMA0]`, so it is not true that for no sink `s` bit `s`
is set in `pmc_sss_population[s]`. -/
theorem self_routing_counterexample :
    population_bit ((DMA0 : Nat) : Int) DMA0 = some true ∧
    ¬ ((mapping_code ((DMA0 : Nat) : Int) DMA0 = some 0xD ∧
        mapping_code ((DMA1 : Nat) : Int) DMA1 = some 0x9) ∧
      ∀ s : Nat, s ≤ PZM → population_bit (s : Int) s ≠ some true) := by
  refine ⟨by decide, fun h => ?_⟩
  exact h.2 DMA0 (by decide) (by decide)

/-- C17, amended: the rows of `DMA0` and `DMA1` hold a valid code (not
`0xFF`, not zero) at the sink's own index, `0xD` and `0x9`, and the
topology declares exactly these two self-routes: among the sinks
`DMA0..PZM`, bit `s` is set in `pmc_sss_population[s]` if and only if `s`
is `DMA0` or `DMA1`. -/
theorem self_routing_codes_and_topology :
    (∃ c0 c1 : Nat, mapping_code ((DMA0 : Nat) : Int) DMA0 = some c0 ∧
      mapping_code ((DMA1 : Nat) : Int) DMA1 = some c1 ∧
      c0 = 0xD ∧ c1 = 0x9 ∧ c0 ≠ 0xFF ∧ c0 ≠ 0 ∧ c1 ≠ 0xFF ∧ c1 ≠ 0) ∧
    ∀ s : Nat, s ≤ PZM →
      (population_bit (s : Int) s = some true ↔ s = DMA0 ∨ s = DMA1) := by
  refine ⟨⟨0xD, 0x9, rfl, rfl, rfl, rfl, by decide, by decide, by decide, by decide⟩, ?_⟩
  exact self_bits

/-- C18, soundness against the topology: on an addressable sink, when the
resolver returns an endpoint `e` other than the sentinel, the extracted
field `reg` is a 4-bit value, hence not the marker `0xFF`, it is the code
`pmc_sss_cfg_mapping[remote][e]`, and bit `e` is set in
`pmc_sss_population[remote]`. -/
theorem regfield_sound_topology (st : PMCSSS) (w remote e : Nat)
    (hs : st.regs[R_CFG]? = some w) (hr : remote ≤ SBI)
    (hres : pmc_get_sss_regfield st (remote : Int) = some e) (hne : e ≠ NO_REMOTE) :
    ∃ shift reg, cIndex r_pmc_cfg_sss_shifts (remote : Int) = some shift ∧
      extract32 w shift R_PMC_SSS_FIELD_LENGTH = some reg ∧
      reg < 16 ∧ reg ≠ 0xFF ∧ e ≤ PZM ∧
      mapping_code (remote : Int) e = some reg ∧
      population_bit (remote : Int) e = some true := by
  have h5 : remote ≤ 5 := hr
  obtain ⟨x, hx8, hx⟩ :=
    loop_total ⟨remote, by omega⟩ ⟨(w >>> (4 * remote)) &&& 15, field_lt _⟩
  have hloop := regfield_eq_loop st w remote hs hr
  rw [hres] at hloop
  have hex : e = x := Option.some.inj (hloop.trans hx)
  subst hex
  obtain ⟨hff, hcode, hpop⟩ :=
    loop_sound ⟨remote, by omega⟩ ⟨(w >>> (4 * remote)) &&& 15, field_lt _⟩ ⟨e, hx8⟩ hx hne
  have hle : e ≤ PZM := by
    have h7 : e ≠ 7 := hne
    show e ≤ 6
    omega
  exact ⟨_, _, shift_of remote hr, extract32_nat w (4 * remote) (by omega), field_lt _,
    hff, hle, hcode, hpop⟩

theorem regfield_sound_topology_witness :
    ((PMCSSS.mk [0x00005000] []).regs[R_CFG]? = some 0x00005000 ∧ AES ≤ SBI ∧
      pmc_get_sss_regfield ⟨[0x00005000], []⟩ ((AES : Nat) : Int) = some DMA1 ∧
      DMA1 ≠ NO_REMOTE) ∧
    ∃ shift reg, cIndex r_pmc_cfg_sss_shifts ((AES : Nat) : Int) = some shift ∧
      extract32 0x00005000 shift R_PMC_SSS_FIELD_LENGTH = some reg ∧
      reg < 16 ∧ reg ≠ 0xFF ∧ DMA1 ≤ PZM ∧
      mapping_code ((AES : Nat) : Int) DMA1 = some reg ∧
      population_bit ((AES : Nat) : Int) DMA1 = some true :=
  ⟨by decide, regfield_sound_topology ⟨[0x00005000], []⟩ 0x00005000 AES DMA1 rfl (by decide)
    (by decide) (by decide)⟩

/-- C19, the unaddressable sink: the shift of `PZM` is `-1`, which breaks
the precondition `0 ≤ start` of `extract32`; `pmc_sss_cfg_mapping` has six
rows, so the row index `PZM` is out of range and the scan of that row
fails; for sink `PZM` the resolver takes the error branch on every state;
and on a state whose register file has its `R_MAX` words the resolver is
defined exactly for the six sinks `DMA0..SBI`. -/
theorem pzm_unaddressable :
    cIndex r_pmc_cfg_sss_shifts ((PZM : Nat) : Int) = some (-1) ∧
    (∀ w, extract32 w (-1) R_PMC_SSS_FIELD_LENGTH = none) ∧
    pmc_sss_cfg_mapping.length = 6 ∧
    cIndex pmc_sss_cfg_mapping ((PZM : Nat) : Int) = none ∧
    (∀ reg, pmc_get_sss_regfield_loop ((PZM : Nat) : Int) reg (PMC_NUM_REMOTES + 1) 0 = none) ∧
    (∀ s : PMCSSS, pmc_get_sss_regfield s ((PZM : Nat) : Int) = none) ∧
    (∀ (s : PMCSSS) (remote : Int), s.regs.length = R_MAX →
      ((pmc_get_sss_regfield s remote).isSome = true ↔
        0 ≤ remote ∧ remote ≤ ((SBI : Nat) : Int))) := by
  refine ⟨rfl, extract32_neg_one, rfl, rfl, fun reg => rfl, regfield_pzm_none, ?_⟩
  intro s remote hlen
  have hsbi : ((SBI : Nat) : Int) = 5 := rfl
  rw [hsbi]
  constructor
  · intro hsome
    by_contra hnot
    have hcases : (remote < 0 ∨ (PMC_NUM_REMOTES : Int) ≤ remote) ∨
        remote = ((PZM : Nat) : Int) := by
      have h7 : ((PMC_NUM_REMOTES : Nat) : Int) = 7 := rfl
      have h6 : ((PZM : Nat) : Int) = 6 := rfl
      rw [h7, h6]
      omega
    rcases hcases with h | h
    · rw [regfield_none_of_shift_none s remote (shift_none_of_out_of_range remote h)] at hsome
      exact absurd hsome (by simp)
    · rw [h, regfield_pzm_none s] at hsome
      exact absurd hsome (by simp)
  · rintro ⟨h0, h5⟩
    obtain ⟨n, rfl⟩ := Int.eq_ofNat_of_zero_le h0
    have hn : n ≤ 5 := by omega
    obtain ⟨w, hw⟩ := regs_singleton s hlen
    have hs : s.regs[R_CFG]? = some w := by rw [hw]; rfl
    obtain ⟨x, _, hx⟩ :=
      loop_total ⟨n, by omega⟩ ⟨(w >>> (4 * n)) &&& 15, field_lt _⟩
    rw [regfield_eq_loop s w n hs hn, hx]
    rfl

end SssPmc
